import Mathlib

/-!
Shallow embedding of the crypto price-alert monitoring engine:
the condition evaluator (`shouldTrigger`), the group tick
(`executeGroupTick`), the index/group manager (`applyChange`,
`rebuildFromDb`), and the notification delivery queue
(`pushToNotifyQueue` / `processQueue` / `processTask`).

Prices, thresholds and percent changes are modelled as rationals;
Unix-second timestamps as integers.  JavaScript truthiness tests on
numbers (`x &&`, `x ||`, `x ??`) are translated explicitly: a numeric
guard `x &&` holds only for a present, nonzero value, `x || d` falls
back to `d` on `0`/absent, and `x ?? d` falls back only on absent.
-/

/-- The six condition kinds of `condition_type`. -/
inductive CondType
  | cross_up
  | cross_down
  | price_gte
  | price_lte
  | pct_change_up
  | pct_change_down
deriving DecidableEq, Repr

/-- The per-rule evaluator scratch state (`_lastState`), a record of the
scalar keys the evaluator reads and writes: `wasAbove`, `wasBelow`,
`basePrice`, `windowSec`.  An absent key is `none`. -/
structure EvalState where
  wasAbove : Option Bool
  wasBelow : Option Bool
  basePrice : Option ℚ
  windowSec : Option ℚ
deriving DecidableEq, Repr

/-- The evaluator state with no keys set. -/
def emptyState : EvalState := ⟨none, none, none, none⟩

/-- An alert rule as stored (the fields the engine reads). -/
structure Alert where
  id : String
  symbol : String
  condition_type : CondType
  threshold : ℚ
  poll_interval_sec : Int
  cooldown_sec : Int
  is_enabled : Bool
  last_triggered_at : Option Int
  last_state : Option EvalState
deriving DecidableEq, Repr

/-- An alert held in the in-memory index: the stored alert plus the
materialized `_lastState` (`alert.last_state || {}`). -/
structure AlertWS extends Alert where
  lastState : EvalState
deriving DecidableEq, Repr

/-- The cooldown guard
`alert.last_triggered_at && now - alert.last_triggered_at < alert.cooldown_sec`:
a JS truthiness test, so a missing or zero timestamp never activates it. -/
def cooldownActive (a : AlertWS) (now : Int) : Bool :=
  match a.last_triggered_at with
  | none => false
  | some t => t != 0 && decide (now - t < a.cooldown_sec)

/-- Rendering of a rational in a template literal; on the integral
values the engine interpolates this is the plain integer numeral. -/
def numStr (q : ℚ) : String :=
  if q.den = 1 then toString q.num else toString q

/-- `change.toFixed(2)`: two-decimal rendering, rounding half up. -/
def toFixed2 (q : ℚ) : String :=
  let scaled : Int := Int.floor (q * 100 + 1 / 2)
  let n := scaled.natAbs
  let ip := n / 100
  let fp := n % 100
  (if scaled < 0 then "-" else "")
    ++ toString ip ++ "."
    ++ (if fp < 10 then "0" else "") ++ toString fp

/-- The percent-change baseline guard
`windowSec > 0 && state.basePrice`: the baseline takes part only when
the (defaulted) window is positive and `basePrice` is a present,
nonzero (truthy) value. -/
def pctBase (st : EvalState) : Option ℚ :=
  if st.windowSec.getD 0 > 0 then
    match st.basePrice with
    | some b => if b = 0 then none else some b
    | none => none
  else none

/-- Result of one evaluation: the `{triggered, reason}` return value of
`shouldTrigger` together with the rule state as it stands after the
call (the source mutates `alert._lastState` in place). -/
structure EvalResult where
  triggered : Bool
  reason : String
  state : EvalState
deriving DecidableEq, Repr

/-- `shouldTrigger(alert, now, price)` of the monitor engine.  Checks
cooldown first, then dispatches on the condition kind.  In every
triggering branch the source returns before the `state.<flag> = ...`
assignment lines, so the returned state is the incoming one; in the
non-triggering branches the flag / baseline updates do run. -/
def shouldTrigger (a : AlertWS) (now : Int) (price : ℚ) : EvalResult :=
  if cooldownActive a now then
    ⟨false, "cooldown", a.lastState⟩
  else
    let state := a.lastState
    let threshold := a.threshold
    match a.condition_type with
    | .cross_up =>
      let wasAbove := state.wasAbove.getD (decide (price ≥ threshold))
      let isAbove := decide (price ≥ threshold)
      if !wasAbove && isAbove then
        ⟨true, "cross_up: "
          ++ (match state.wasAbove with
              | some true => "false"
              | _ => "undefined") ++ " -> true", state⟩
      else
        ⟨false, "no condition met", { state with wasAbove := some isAbove }⟩
    | .cross_down =>
      let wasBelow := state.wasBelow.getD (decide (price ≤ threshold))
      let isBelow := decide (price ≤ threshold)
      if !wasBelow && isBelow then
        ⟨true, "cross_down: "
          ++ (match state.wasBelow with
              | some true => "false"
              | _ => "undefined") ++ " -> true", state⟩
      else
        ⟨false, "no condition met", { state with wasBelow := some isBelow }⟩
    | .price_gte =>
      if price ≥ threshold then
        ⟨true, "price_gte: " ++ numStr price ++ " >= " ++ numStr threshold, state⟩
      else
        ⟨false, "no condition met", state⟩
    | .price_lte =>
      if price ≤ threshold then
        ⟨true, "price_lte: " ++ numStr price ++ " <= " ++ numStr threshold, state⟩
      else
        ⟨false, "no condition met", state⟩
    | .pct_change_up =>
      let windowSec := state.windowSec.getD 0
      match pctBase state with
      | some b =>
        let change := (price - b) / b * 100
        if change ≥ threshold then
          ⟨true, "pct_change_up: " ++ toFixed2 change ++ "% >= "
            ++ numStr threshold ++ "%", state⟩
        else
          ⟨false, "no condition met",
            { state with basePrice := some price,
                         windowSec := some (if windowSec = 0 then 60 else windowSec) }⟩
      | none =>
        ⟨false, "no condition met",
          { state with basePrice := some price,
                       windowSec := some (if windowSec = 0 then 60 else windowSec) }⟩
    | .pct_change_down =>
      let windowSec := state.windowSec.getD 0
      match pctBase state with
      | some b =>
        let change := (price - b) / b * 100
        if change ≤ -threshold then
          ⟨true, "pct_change_down: " ++ toFixed2 change ++ "% <= -"
            ++ numStr threshold ++ "%", state⟩
        else
          ⟨false, "no condition met",
            { state with basePrice := some price,
                         windowSec := some (if windowSec = 0 then 60 else windowSec) }⟩
      | none =>
        ⟨false, "no condition met",
          { state with basePrice := some price,
                       windowSec := some (if windowSec = 0 then 60 else windowSec) }⟩

/-- A group of alerts sharing one `(symbol, poll interval)` pair.
`alertIds` is the JS `Set` of rule ids in insertion order. -/
structure AlertGroup where
  symbol : String
  interval : Int
  alertIds : List String
  nextRunAt : Int
deriving DecidableEq, Repr

/-- The record passed to `createAlertEvent` on a trigger. -/
structure AlertEventRec where
  alert_id : String
  event_type : String
  reason : String
  price : ℚ
  threshold : ℚ
  notify_status : String
  triggered_at : Int
deriving DecidableEq, Repr

/-- The record passed to `pushToNotifyQueue` on a trigger. -/
structure NotifyTaskRec where
  eventId : Int
  alertId : String
  symbol : String
  conditionType : CondType
  threshold : ℚ
  price : ℚ
  reason : String
  triggeredAt : Int
deriving DecidableEq, Repr

/-- One `updateAlert(id, partial)` call recorded by a tick:
`last_triggered_at` is `some now` on the trigger path and `none` when
the call only persists `last_state`. -/
structure DbUpdate where
  id : String
  last_triggered_at : Option Int
  last_state : EvalState
deriving DecidableEq, Repr

/-- Pointwise map update for the function-valued indexes. -/
def upd {α β : Type} [DecidableEq α] (m : α → Option β) (k : α) (v : Option β) :
    α → Option β :=
  fun x => if x = k then v else m x

/-- Everything a group tick produces: the by-id index and group as left
afterwards, the events created, the notification tasks pushed and the
`updateAlert` calls made, in order. -/
structure TickOut where
  byId : String → Option AlertWS
  group : AlertGroup
  events : List AlertEventRec
  tasks : List NotifyTaskRec
  updates : List DbUpdate

/-- Loop body of `executeGroupTick` for one alert id of the group. -/
def tickStep (now : Int) (price : ℚ) (nextEventId : Int)
    (acc : (String → Option AlertWS) × List AlertEventRec × List NotifyTaskRec × List DbUpdate)
    (alertId : String) :
    (String → Option AlertWS) × List AlertEventRec × List NotifyTaskRec × List DbUpdate :=
  let (m, evs, tks, ups) := acc
  match m alertId with
  | none => (m, evs, tks, ups)
  | some a =>
    if !a.is_enabled then (m, evs, tks, ups)
    else
      let r := shouldTrigger a now price
      if r.triggered then
        let a' := { a with last_triggered_at := some now, lastState := r.state }
        let eventId := nextEventId + evs.length
        let ev : AlertEventRec :=
          ⟨a.id, "trigger", r.reason, price, a.threshold, "queued", now⟩
        let tk : NotifyTaskRec :=
          ⟨eventId, a.id, a.symbol, a.condition_type, a.threshold, price, r.reason, now⟩
        (upd m alertId (some a'), evs ++ [ev], tks ++ [tk],
          ups ++ [⟨a.id, some now, r.state⟩])
      else
        let a' := { a with lastState := r.state }
        (upd m alertId (some a'), evs, tks, ups ++ [⟨a.id, none, r.state⟩])

/-- `executeGroupTick(group)`: fetch one price for the group; on fetch
failure the source logs and returns at once — before the final
`group.nextRunAt = now + group.interval` line, so nothing is touched,
the next-run time included.  On success every enabled alert still in
the group is evaluated and its state, events and notifications are
produced, then `nextRunAt` is advanced. -/
def executeGroupTick (byId : String → Option AlertWS) (g : AlertGroup) (now : Int)
    (fetch : Except String ℚ) (nextEventId : Int) : TickOut :=
  match fetch with
  | .error _ => ⟨byId, g, [], [], []⟩
  | .ok price =>
    let (m, evs, tks, ups) :=
      g.alertIds.foldl (tickStep now price nextEventId) (byId, [], [], [])
    ⟨m, { g with nextRunAt := now + g.interval }, evs, tks, ups⟩

/-- Outcome of one `sendTelegramNotification` attempt. -/
inductive SendOutcome
  | success
  | failure (msg : String)
deriving DecidableEq, Repr

/-- `MAX_RETRIES`. -/
def MAX_RETRIES : ℕ := 3

/-- `RETRY_DELAYS` in milliseconds. -/
def RETRY_DELAYS : List ℕ := [1000, 3000, 10000]

/-- `RETRY_DELAYS[attempts - 1] || RETRY_DELAYS[RETRY_DELAYS.length - 1]`:
the per-attempt backoff, falling back to the last schedule entry for an
out-of-range (or zero) lookup. -/
def retryDelay (attempts : ℕ) : ℕ :=
  let fb := (RETRY_DELAYS.get? (RETRY_DELAYS.length - 1)).getD 0
  match RETRY_DELAYS.get? (attempts - 1) with
  | some v => if v = 0 then fb else v
  | none => fb

/-- Terminal bookkeeping of one task's delivery: how many attempts were
made, the `updateAlertEventStatus` status and error written for the
referenced event, and the backoff waits taken between attempts. -/
structure DeliveryOutcome where
  attempts : ℕ
  status : String
  error : Option String
  waits : List ℕ
deriving DecidableEq, Repr

/-- The retry loop of `processTask`, with the attempt outcomes given by
`outcome` (indexed from 1).  `fuel` bounds the loop structurally; the
entry point supplies `MAX_RETRIES`, which the `attempts < MAX_RETRIES`
test makes exact. -/
def processLoop (outcome : ℕ → SendOutcome) :
    ℕ → ℕ → Option String → List ℕ → DeliveryOutcome
  | 0, attempts, lastError, waits => ⟨attempts, "failed", lastError, waits⟩
  | fuel + 1, attempts, lastError, waits =>
    if attempts < MAX_RETRIES then
      let a' := attempts + 1
      match outcome a' with
      | .success => ⟨a', "success", none, waits⟩
      | .failure msg =>
        processLoop outcome fuel a' (some msg)
          (if a' < MAX_RETRIES then waits ++ [retryDelay a'] else waits)
    else ⟨attempts, "failed", lastError, waits⟩

/-- `processTask`: attempt delivery up to `MAX_RETRIES` times; a success
marks the event `success` with no error and stops; exhausting the
retries marks it `failed` with the last error message. -/
def processTask (outcome : ℕ → SendOutcome) : DeliveryOutcome :=
  processLoop outcome MAX_RETRIES 0 none []

/-- Program counter of one `processQueue` invocation that passed the
`isProcessing` guard: it is either at the top of its `while` loop or
suspended inside an `await processTask(...)` send. -/
inductive DrainPC
  | looping
  | sending (t : ℕ)
deriving DecidableEq, Repr

/-- State of the notification queue module: the pending FIFO `tasks`,
the `isProcessing` flag, the drain invocations currently alive past the
guard, and two history variables: the tasks sent so far and every task
ever enqueued, in order.  Tasks are identified by numbers. -/
structure QueueState where
  tasks : List ℕ
  isProcessing : Bool
  drains : List DrainPC
  sent : List ℕ
  enqueued : List ℕ
deriving DecidableEq, Repr

/-- The queue module as loaded: empty FIFO, flag down, no drain. -/
def initQueue : QueueState := ⟨[], false, [], [], []⟩

/-- The tasks currently inside an `await processTask` send. -/
def inflight (s : QueueState) : List ℕ :=
  s.drains.foldr
    (fun d acc => match d with | .sending t => t :: acc | .looping => acc) []

/-- `pushToNotifyQueue(task)`: append the task to the FIFO, then call
`processQueue`, whose guard `if (notifyQueue.isProcessing || ...)
return` makes the call a no-op while a drain is already running;
otherwise the flag is raised and a fresh drain invocation starts. -/
def pushToNotifyQueue (s : QueueState) (t : ℕ) : QueueState :=
  if s.isProcessing then
    { s with tasks := s.tasks ++ [t], enqueued := s.enqueued ++ [t] }
  else
    { tasks := s.tasks ++ [t], isProcessing := true,
      drains := s.drains ++ [.looping],
      sent := s.sent, enqueued := s.enqueued ++ [t] }

/-- Atomic steps of the queue module on the single JS timeline: an
enqueue (`pushToNotifyQueue`), or a live drain invocation advancing at
one of its suspension points — popping the head task to send it,
completing a send, or, seeing an empty FIFO, lowering the flag and
finishing. -/
inductive QStep : QueueState → QueueState → Prop
  | enq (s : QueueState) (t : ℕ) :
      QStep s (pushToNotifyQueue s t)
  | drain_pick (s : QueueState) (l r : List DrainPC) (t : ℕ) (ts : List ℕ) :
      s.drains = l ++ .looping :: r →
      s.tasks = t :: ts →
      QStep s { s with tasks := ts, drains := l ++ .sending t :: r }
  | drain_send_done (s : QueueState) (l r : List DrainPC) (t : ℕ) :
      s.drains = l ++ .sending t :: r →
      QStep s { s with sent := s.sent ++ [t], drains := l ++ .looping :: r }
  | drain_finish (s : QueueState) (l r : List DrainPC) :
      s.drains = l ++ .looping :: r →
      s.tasks = [] →
      QStep s { s with isProcessing := false, drains := l ++ r }

/-- The queue states reachable from module load by any interleaving of
enqueues and drain progress. -/
inductive QReachable : QueueState → Prop
  | init : QReachable initQueue
  | step {s s' : QueueState} : QReachable s → QStep s s' → QReachable s'

/-- The single-consumer FIFO invariant of the notification queue:
the `isProcessing` flag is up exactly while a drain invocation is
alive, there is never more than one drain invocation (hence never two
sends in flight), pending tasks always have a live consumer, and the
full enqueue order is exactly sends-so-far, then the in-flight send,
then the FIFO. -/
def QueueInv (s : QueueState) : Prop :=
  (s.isProcessing = true ↔ s.drains ≠ []) ∧
  s.drains.length ≤ 1 ∧
  (s.tasks ≠ [] → s.drains ≠ []) ∧
  s.enqueued = s.sent ++ inflight s ++ s.tasks

/-- An alert-change action accepted by `applyChange`. -/
inductive ChangeAction
  | upsert
  | update
  | delete
deriving DecidableEq, Repr

/-- The three derived in-memory structures of the monitor engine:
`alertsById`, `enabledAlertsBySymbol` and `groups` (the latter keyed by
the `(symbol, interval)` pair realized by `makeGroupKey`). -/
structure EngineState where
  byId : String → Option AlertWS
  bySym : String → Option (List String)
  groups : String × Int → Option AlertGroup

/-- The engine's indexes after `clear()`. -/
def emptyEngine : EngineState := ⟨fun _ => none, fun _ => none, fun _ => none⟩

/-- JS `Set.add`: append unless already present. -/
def listAdd (l : List String) (x : String) : List String :=
  if x ∈ l then l else l ++ [x]

/-- JS `Set.delete`. -/
def listDel (l : List String) (x : String) : List String :=
  l.filter (fun y => y ≠ x)

/-- Remove an id from the group at a key, deleting the group if its id
set becomes empty (the `group.alertIds.delete` / `groups.delete` pair). -/
def groupRemove (gs : String × Int → Option AlertGroup) (k : String × Int)
    (id : String) : String × Int → Option AlertGroup :=
  match gs k with
  | none => gs
  | some g =>
    let ids := listDel g.alertIds id
    if ids = [] then upd gs k none
    else upd gs k (some { g with alertIds := ids })

/-- Remove an id from the symbol index at a symbol, deleting the key if
its id set becomes empty. -/
def symRemove (bs : String → Option (List String)) (sym : String)
    (id : String) : String → Option (List String) :=
  match bs sym with
  | none => bs
  | some l =>
    let l' := listDel l id
    if l' = [] then upd bs sym none
    else upd bs sym (some l')

/-- Insert an enabled alert into all three indexes, creating its
symbol entry and its `(symbol, interval)` group as needed; a created
group is first scheduled `interval` seconds out.  This is the shared
body of `rebuildFromDb`'s loop and of `applyChange`'s enabled branch
after the old-group removal. -/
def insertEnabled (s : EngineState) (alert : Alert) (now : Int) : EngineState :=
  let aws : AlertWS := { toAlert := alert, lastState := alert.last_state.getD emptyState }
  let byId' := upd s.byId alert.id (some aws)
  let bySym' := upd s.bySym alert.symbol
    (some (listAdd ((s.bySym alert.symbol).getD []) alert.id))
  let key := (alert.symbol, alert.poll_interval_sec)
  let g0 := match s.groups key with
    | some g => g
    | none => ⟨alert.symbol, alert.poll_interval_sec, [], now + alert.poll_interval_sec⟩
  let groups' := upd s.groups key (some { g0 with alertIds := listAdd g0.alertIds alert.id })
  ⟨byId', bySym', groups'⟩

/-- Remove one alert id from all three indexes, going through the
stored copy for its symbol and interval.  This is the removal block
that `applyChange` runs verbatim both for a `delete` action and for a
disabled upsert/update. -/
def removeAlert (s : EngineState) (id : String) : EngineState :=
  let s1 :=
    match s.byId id with
    | some oldAlert =>
      { s with bySym := symRemove s.bySym oldAlert.symbol id,
               groups := groupRemove s.groups
                 (oldAlert.symbol, oldAlert.poll_interval_sec) id }
    | none => s
  { s1 with byId := upd s1.byId id none }

/-- `applyChange(action, alert)`: incremental reconciliation of the
three derived structures for one alert.  `delete` removes the alert
from the symbol index and its group (via the stored copy) and drops it
from the id index; an enabled upsert/update re-inserts it, first moving
it out of its old group when its symbol or interval changed; a disabled
upsert/update removes it everywhere, exactly as `delete` does. -/
def applyChange (s : EngineState) (action : ChangeAction) (alert : Alert)
    (now : Int) : EngineState :=
  match action with
  | .delete => removeAlert s alert.id
  | _ =>
    if alert.is_enabled then
      let s1 :=
        match s.byId alert.id with
        | some old =>
          if old.poll_interval_sec ≠ alert.poll_interval_sec ∨ old.symbol ≠ alert.symbol then
            { s with groups :=
                groupRemove s.groups (old.symbol, old.poll_interval_sec) alert.id }
          else s
        | none => s
      insertEnabled s1 alert now
    else removeAlert s alert.id

/-- `rebuildFromDb()`: clear the three structures and re-insert every
enabled alert read from the store. -/
def rebuildFromDb (alerts : List Alert) (now : Int) : EngineState :=
  alerts.foldl (fun s a => insertEnabled s a now) emptyEngine

/-- A sequence of `applyChange` calls, each with its own wall-clock. -/
def applyChanges (s : EngineState) (ops : List (ChangeAction × Alert × Int)) :
    EngineState :=
  ops.foldl (fun s op => applyChange s op.1 op.2.1 op.2.2) s

/-- Membership of a rule id in the group stored at a key. -/
def inGroup (s : EngineState) (id : String) (k : String × Int) : Prop :=
  ∃ g, s.groups k = some g ∧ id ∈ g.alertIds

/-- The group-consistency invariant the engine maintains: the id index
holds only enabled alerts; every stored group is nonempty, carries its
own key, and holds only ids of indexed alerts with that key; and every
indexed alert is a member of the group at its own key. -/
structure EngineInv (s : EngineState) : Prop where
  enabled : ∀ id a, s.byId id = some a → a.is_enabled = true
  keyed : ∀ k g, s.groups k = some g → g.symbol = k.1 ∧ g.interval = k.2
  nonempty : ∀ k g, s.groups k = some g → g.alertIds ≠ []
  sound : ∀ k g, s.groups k = some g → ∀ id, id ∈ g.alertIds →
    ∃ a, s.byId id = some a ∧ a.symbol = k.1 ∧ a.poll_interval_sec = k.2
  grouped : ∀ id a, s.byId id = some a → inGroup s id (a.symbol, a.poll_interval_sec)

/-- The claim-level invariant: every indexed (hence enabled) rule
belongs to the group at its own `(symbol, interval)` key and to no
other; a rule absent from the id index belongs to no group; and no
stored group has an empty rule-id set. -/
def GroupInvariant (s : EngineState) : Prop :=
  (∀ id a, s.byId id = some a →
    inGroup s id (a.symbol, a.poll_interval_sec) ∧
    ∀ k, inGroup s id k → k = (a.symbol, a.poll_interval_sec)) ∧
  (∀ id, s.byId id = none → ∀ k, ¬ inGroup s id k) ∧
  (∀ k g, s.groups k = some g → g.alertIds ≠ [])

/-- A one-rule index entry for concrete runs: id `"a1"` on `"BTCUSDT"`,
polled every 5 seconds, with the given kind, threshold, cooldown,
last-trigger timestamp and evaluator state. -/
def mkAlertWS (ct : CondType) (thr : ℚ) (cd : Int) (lta : Option Int)
    (st : EvalState) : AlertWS :=
  ⟨⟨"a1", "BTCUSDT", ct, thr, 5, cd, true, lta, some st⟩, st⟩

/-- C5: a `cross_up` (resp. `cross_down`) rule whose state holds no
was-above (resp. was-below) flag never triggers on its first
evaluation, whatever the price and threshold; outside cooldown the
flag is initialized to the current price-versus-threshold comparison,
so only a genuine later transition can trigger. -/
theorem cross_first_eval_never_triggers (a : AlertWS) (now : Int) (price : ℚ) :
    ((a.condition_type = .cross_up ∧ a.lastState.wasAbove = none) ∨
     (a.condition_type = .cross_down ∧ a.lastState.wasBelow = none)) →
    (shouldTrigger a now price).triggered = false ∧
    (cooldownActive a now = false →
      (a.condition_type = .cross_up →
        (shouldTrigger a now price).state.wasAbove = some (decide (price ≥ a.threshold))) ∧
      (a.condition_type = .cross_down →
        (shouldTrigger a now price).state.wasBelow = some (decide (price ≤ a.threshold)))) := by
  intro h
  cases hcd : cooldownActive a now
  · rcases h with ⟨hct, hst⟩ | ⟨hct, hst⟩ <;> simp [shouldTrigger, hcd, hct, hst]
  · rcases h with ⟨hct, hst⟩ | ⟨hct, hst⟩ <;> simp [shouldTrigger, hcd]

/-- Witness for C5 at a concrete first observation: `cross_up`,
threshold 100, first price 90 — no trigger, flag initialized below. -/
theorem cross_first_eval_never_triggers_w :
    (shouldTrigger (mkAlertWS .cross_up 100 300 none emptyState) 0 90).triggered = false ∧
    (cooldownActive (mkAlertWS .cross_up 100 300 none emptyState) 0 = false →
      ((mkAlertWS .cross_up 100 300 none emptyState).condition_type = .cross_up →
        (shouldTrigger (mkAlertWS .cross_up 100 300 none emptyState) 0 90).state.wasAbove =
          some (decide ((90 : ℚ) ≥ (mkAlertWS .cross_up 100 300 none emptyState).threshold))) ∧
      ((mkAlertWS .cross_up 100 300 none emptyState).condition_type = .cross_down →
        (shouldTrigger (mkAlertWS .cross_up 100 300 none emptyState) 0 90).state.wasBelow =
          some (decide ((90 : ℚ) ≤ (mkAlertWS .cross_up 100 300 none emptyState).threshold)))) :=
  cross_first_eval_never_triggers (mkAlertWS .cross_up 100 300 none emptyState) 0 90
    (Or.inl ⟨rfl, rfl⟩)

/-- C4 counterexample: a rule whose `last_triggered_at` is set to the
timestamp 0 is inside the claimed cooldown window at `now = 10` with
`cooldown_sec = 300`, yet the JS truthiness guard
`alert.last_triggered_at && ...` skips the cooldown check and the
qualifying `price_gte` tick triggers. -/
theorem cooldown_zero_timestamp_cex :
    ((10 : Int) - 0 < 300) ∧
    (shouldTrigger (mkAlertWS .price_gte 100 300 (some 0) emptyState) 10 150).triggered = true := by
  decide

/-- C4 amended: for a rule with a nonzero `last_triggered_at`,
evaluation inside the cooldown window returns non-triggered with the
state untouched; outside it (the boundary `now = last + cooldown`
included) `price_gte` / `price_lte` trigger exactly on the level
comparison, with no state dependence and no state change. -/
theorem cooldown_and_level_conditions (a : AlertWS) (now v : Int) (price : ℚ)
    (hv : a.last_triggered_at = some v) (hvz : v ≠ 0) :
    (now - v < a.cooldown_sec →
      shouldTrigger a now price = ⟨false, "cooldown", a.lastState⟩) ∧
    (¬(now - v < a.cooldown_sec) →
      (a.condition_type = .price_gte →
        (shouldTrigger a now price).triggered = decide (price ≥ a.threshold) ∧
        (shouldTrigger a now price).state = a.lastState) ∧
      (a.condition_type = .price_lte →
        (shouldTrigger a now price).triggered = decide (price ≤ a.threshold) ∧
        (shouldTrigger a now price).state = a.lastState)) ∧
    (now = v + a.cooldown_sec → a.condition_type = .price_gte →
      price ≥ a.threshold → (shouldTrigger a now price).triggered = true) := by
  refine ⟨?_, ?_, ?_⟩
  · intro h
    have hcd : cooldownActive a now = true := by
      simp [cooldownActive, hv, hvz, h]
    simp [shouldTrigger, hcd]
  · intro h
    have hcd : cooldownActive a now = false := by
      simp [cooldownActive, hv, h]
    constructor <;> intro hct <;>
      by_cases hp : price ≥ a.threshold <;>
        by_cases hq : price ≤ a.threshold <;>
          simp [shouldTrigger, hcd, hct, hp, hq]
  · intro hnow hct hp
    have h : ¬(now - v < a.cooldown_sec) := by omega
    have hcd : cooldownActive a now = false := by
      simp [cooldownActive, hv, h]
    simp [shouldTrigger, hcd, hct, hp]

/-- Witness for C4 at concrete inputs: a trigger at time 100 with a
300-second cooldown blocks a qualifying tick at 150. -/
theorem cooldown_and_level_conditions_w :
    shouldTrigger (mkAlertWS .price_gte 100 300 (some 100) emptyState) 150 500 =
      ⟨false, "cooldown", emptyState⟩ :=
  (cooldown_and_level_conditions (mkAlertWS .price_gte 100 300 (some 100) emptyState)
    150 100 500 rfl (by decide)).1 (by decide)

/-- C2 counterexample: a `pct_change_up` rule with baseline 100, window
60 and threshold 10% triggers at price 120, but the triggering
evaluation returns before the `state.basePrice = price` line: the
stored baseline is still 100, not the observed 120 the claim requires. -/
theorem pct_baseline_not_reset_cex :
    (shouldTrigger (mkAlertWS .pct_change_up 10 300 none
        ⟨none, none, some 100, some 60⟩) 0 120).triggered = true ∧
    (shouldTrigger (mkAlertWS .pct_change_up 10 300 none
        ⟨none, none, some 100, some 60⟩) 0 120).state.basePrice = some 100 ∧
    ((100 : ℚ) ≠ 120) := by
  have h20 : ((120 : ℚ) - 100) / 100 * 100 = 20 := by norm_num
  refine ⟨?_, ?_, by norm_num⟩ <;>
    simp [shouldTrigger, mkAlertWS, cooldownActive, pctBase, h20,
      show (10 : ℚ) ≤ 20 by norm_num]

/-- C2 amended: outside cooldown, a percent-change rule holding a
usable baseline `b` (present, nonzero, with a positive window) triggers
exactly when `(price − b) / b × 100` meets the threshold (up) or its
negation (down); a non-triggering evaluation rebases to the observed
price, while a triggering one leaves the state — baseline included —
unchanged.  Without a usable baseline the rule never triggers and the
baseline is seeded with the observed price. -/
theorem pct_change_eval (a : AlertWS) (now : Int) (price : ℚ)
    (hcd : cooldownActive a now = false) :
    (a.condition_type = .pct_change_up →
      (∀ b, pctBase a.lastState = some b →
        ((shouldTrigger a now price).triggered = decide ((price - b) / b * 100 ≥ a.threshold)) ∧
        ((price - b) / b * 100 ≥ a.threshold →
          (shouldTrigger a now price).state = a.lastState) ∧
        (¬((price - b) / b * 100 ≥ a.threshold) →
          (shouldTrigger a now price).state.basePrice = some price)) ∧
      (pctBase a.lastState = none →
        (shouldTrigger a now price).triggered = false ∧
        (shouldTrigger a now price).state.basePrice = some price)) ∧
    (a.condition_type = .pct_change_down →
      (∀ b, pctBase a.lastState = some b →
        ((shouldTrigger a now price).triggered = decide ((price - b) / b * 100 ≤ -a.threshold)) ∧
        ((price - b) / b * 100 ≤ -a.threshold →
          (shouldTrigger a now price).state = a.lastState) ∧
        (¬((price - b) / b * 100 ≤ -a.threshold) →
          (shouldTrigger a now price).state.basePrice = some price)) ∧
      (pctBase a.lastState = none →
        (shouldTrigger a now price).triggered = false ∧
        (shouldTrigger a now price).state.basePrice = some price)) := by
  constructor <;> intro hct <;> refine ⟨fun b hb => ?_, fun hb => ?_⟩
  · by_cases hch : (price - b) / b * 100 ≥ a.threshold <;>
      simp [shouldTrigger, hcd, hct, hb, hch]
  · simp [shouldTrigger, hcd, hct, hb]
  · by_cases hch : (price - b) / b * 100 ≤ -a.threshold <;>
      simp [shouldTrigger, hcd, hct, hb, hch]
  · simp [shouldTrigger, hcd, hct, hb]

/-- Witness for C2's amended statement: baseline 100, price 105,
threshold 10% — change 5% does not trigger and the baseline rebases to
105. -/
theorem pct_change_eval_w :
    (shouldTrigger (mkAlertWS .pct_change_up 10 300 none
        ⟨none, none, some 100, some 60⟩) 0 105).state.basePrice = some 105 :=
  (((pct_change_eval (mkAlertWS .pct_change_up 10 300 none
        ⟨none, none, some 100, some 60⟩) 0 105 (by decide)).1 rfl).1
    100 (by decide)).2.2 (by norm_num [mkAlertWS])

/-- A by-id index holding the single rule `"a1"`. -/
def oneAlertMap (a : AlertWS) : String → Option AlertWS :=
  fun x => if x = "a1" then some a else none

/-- First tick of the zero-cooldown cross_up run: threshold 100,
price 90 observed at time 0. -/
def crossTick1 : TickOut :=
  executeGroupTick (oneAlertMap (mkAlertWS .cross_up 100 0 none emptyState))
    ⟨"BTCUSDT", 5, ["a1"], 0⟩ 0 (.ok 90) 0

/-- Second tick of the zero-cooldown cross_up run: price 110 at time 5. -/
def crossTick2 : TickOut :=
  executeGroupTick crossTick1.byId crossTick1.group 5 (.ok 110) 0

/-- Third tick of the zero-cooldown cross_up run: price 120 at time 10. -/
def crossTick3 : TickOut :=
  executeGroupTick crossTick2.byId crossTick2.group 10 (.ok 120) 1

/-- C3 counterexample: in the 90 → 110 → 120 scenario (threshold 100,
cooldown 0) the triggering second evaluation returns before the
`state.wasAbove = isAbove` line, so the flag stays `false` instead of
being updated to the current comparison (`true`), and the third
observation at 120 triggers again instead of exactly once. -/
theorem cross_flag_not_updated_cex :
    crossTick2.events.length = 1 ∧
    (crossTick2.byId "a1").map (fun x => x.lastState.wasAbove) = some (some false) ∧
    some (some false) ≠ some (some (decide ((110 : ℚ) ≥ 100))) ∧
    crossTick3.events.length = 1 := by
  decide

/-- First tick of the default-cooldown cross_up run: cooldown 300,
threshold 100, price 90 at time 0. -/
def crossCd300Tick1 : TickOut :=
  executeGroupTick (oneAlertMap (mkAlertWS .cross_up 100 300 none emptyState))
    ⟨"BTCUSDT", 5, ["a1"], 0⟩ 0 (.ok 90) 0

/-- Second tick of the default-cooldown cross_up run: price 110 at 5. -/
def crossCd300Tick2 : TickOut :=
  executeGroupTick crossCd300Tick1.byId crossCd300Tick1.group 5 (.ok 110) 0

/-- Third tick of the default-cooldown cross_up run: price 120 at 10. -/
def crossCd300Tick3 : TickOut :=
  executeGroupTick crossCd300Tick2.byId crossCd300Tick2.group 10 (.ok 120) 1

/-- C3 amended: outside cooldown a cross rule triggers exactly on the
falling→rising (resp. rising→falling) edge; a non-triggering evaluation
updates the stored flag to the current comparison, but a triggering one
returns early and leaves the whole state — flag included — unchanged.
In the 90 → 110 → 120 scenario the second observation triggers and the
third does not re-trigger only because the default 300-second cooldown
window still covers it, the stored flag still being `false`. -/
theorem cross_eval_amended (a : AlertWS) (now : Int) (price : ℚ)
    (hcd : cooldownActive a now = false) :
    (a.condition_type = .cross_up →
      (a.lastState.wasAbove.getD (decide (price ≥ a.threshold)) = false →
        price ≥ a.threshold →
        (shouldTrigger a now price).triggered = true ∧
        (shouldTrigger a now price).state = a.lastState) ∧
      (¬(a.lastState.wasAbove.getD (decide (price ≥ a.threshold)) = false ∧
          price ≥ a.threshold) →
        (shouldTrigger a now price).triggered = false ∧
        (shouldTrigger a now price).state.wasAbove = some (decide (price ≥ a.threshold)))) ∧
    (a.condition_type = .cross_down →
      (a.lastState.wasBelow.getD (decide (price ≤ a.threshold)) = false →
        price ≤ a.threshold →
        (shouldTrigger a now price).triggered = true ∧
        (shouldTrigger a now price).state = a.lastState) ∧
      (¬(a.lastState.wasBelow.getD (decide (price ≤ a.threshold)) = false ∧
          price ≤ a.threshold) →
        (shouldTrigger a now price).triggered = false ∧
        (shouldTrigger a now price).state.wasBelow = some (decide (price ≤ a.threshold)))) ∧
    (crossCd300Tick1.events.length = 0 ∧ crossCd300Tick2.events.length = 1 ∧
      crossCd300Tick3.events.length = 0 ∧
      (crossCd300Tick3.byId "a1").map (fun x => x.lastState.wasAbove) = some (some false)) := by
  refine ⟨fun hct => ⟨fun h1 h2 => ?_, fun h12 => ?_⟩,
          fun hct => ⟨fun h1 h2 => ?_, fun h12 => ?_⟩, by decide⟩
  · have hd : decide (price ≥ a.threshold) = true := decide_eq_true h2
    have h1' : a.lastState.wasAbove = some false := by
      cases hw : a.lastState.wasAbove with
      | none => rw [hw] at h1; simp [hd] at h1
      | some b => rw [hw] at h1; simpa using h1
    simp [shouldTrigger, hcd, hct, h1', hd]
  · by_cases h1 : a.lastState.wasAbove.getD (decide (price ≥ a.threshold)) = false
    · have h2 : ¬(price ≥ a.threshold) := fun h2 => h12 ⟨h1, h2⟩
      simp [shouldTrigger, hcd, hct, h1, h2]
    · have h1' : a.lastState.wasAbove.getD (decide (price ≥ a.threshold)) = true := by
        revert h1; cases a.lastState.wasAbove.getD (decide (price ≥ a.threshold)) <;> simp
      simp [shouldTrigger, hcd, hct, h1']
  · have hd : decide (price ≤ a.threshold) = true := decide_eq_true h2
    have h1' : a.lastState.wasBelow = some false := by
      cases hw : a.lastState.wasBelow with
      | none => rw [hw] at h1; simp [hd] at h1
      | some b => rw [hw] at h1; simpa using h1
    simp [shouldTrigger, hcd, hct, h1', hd]
  · by_cases h1 : a.lastState.wasBelow.getD (decide (price ≤ a.threshold)) = false
    · have h2 : ¬(price ≤ a.threshold) := fun h2 => h12 ⟨h1, h2⟩
      simp [shouldTrigger, hcd, hct, h1, h2]
    · have h1' : a.lastState.wasBelow.getD (decide (price ≤ a.threshold)) = true := by
        revert h1; cases a.lastState.wasBelow.getD (decide (price ≤ a.threshold)) <;> simp
      simp [shouldTrigger, hcd, hct, h1']

/-- Witness for C3's amended statement: a cross_up rule whose flag is
`false` triggers at price 110 over threshold 100 and keeps its state. -/
theorem cross_eval_amended_w :
    (shouldTrigger (mkAlertWS .cross_up 100 300 none
        ⟨some false, none, none, none⟩) 5 110).triggered = true ∧
    (shouldTrigger (mkAlertWS .cross_up 100 300 none
        ⟨some false, none, none, none⟩) 5 110).state =
      (mkAlertWS .cross_up 100 300 none ⟨some false, none, none, none⟩).lastState :=
  ((cross_eval_amended (mkAlertWS .cross_up 100 300 none
      ⟨some false, none, none, none⟩) 5 110 (by decide)).1 rfl).1
    (by decide) (by decide)

/-- Whether `pat` occurs at the head of `s`. -/
def strStarts : List Char → List Char → Bool
  | _, [] => true
  | [], _ => false
  | a :: as, b :: bs => a == b && strStarts as bs

/-- Whether `pat` occurs contiguously anywhere in `s`. -/
def listHasSub : List Char → List Char → Bool
  | [], pat => strStarts [] pat
  | s@(_ :: rest), pat => strStarts s pat || listHasSub rest pat

/-- Whether the string `pat` occurs as a substring of `s`. -/
def strHasSub (s pat : String) : Bool :=
  listHasSub s.toList pat.toList

/-- C9 counterexample: a triggering `cross_up` evaluation at observed
price 110 against threshold 100 returns the fixed reason string
`"cross_up: undefined -> true"`, which embeds neither `110` nor `100` —
no concrete numeric comparison at all. -/
theorem cross_reason_no_numbers_cex :
    (shouldTrigger (mkAlertWS .cross_up 100 300 none
        ⟨some false, none, none, none⟩) 5 110).triggered = true ∧
    strHasSub (shouldTrigger (mkAlertWS .cross_up 100 300 none
        ⟨some false, none, none, none⟩) 5 110).reason "110" = false ∧
    strHasSub (shouldTrigger (mkAlertWS .cross_up 100 300 none
        ⟨some false, none, none, none⟩) 5 110).reason "100" = false := by
  decide

/-- First tick of the spec's `price_gte` scenario: threshold 50000,
cooldown 300, price 49000 at time 0. -/
def gteTick1 : TickOut :=
  executeGroupTick (oneAlertMap (mkAlertWS .price_gte 50000 300 none emptyState))
    ⟨"BTCUSDT", 5, ["a1"], 0⟩ 0 (.ok 49000) 0

/-- Second tick of the spec's `price_gte` scenario: price 50100 at 5. -/
def gteTick2 : TickOut :=
  executeGroupTick gteTick1.byId gteTick1.group 5 (.ok 50100) 0

/-- A pattern is matched at the head of any list it prefixes. -/
theorem strStarts_append (p t : List Char) : strStarts (p ++ t) p = true := by
  induction p with
  | nil => simp [strStarts]
  | cons a as ih => simp [strStarts, ih]

/-- A pattern matched at the head occurs as a substring. -/
theorem listHasSub_of_starts (s pat : List Char) (h : strStarts s pat = true) :
    listHasSub s pat = true := by
  cases s with
  | nil => exact h
  | cons c cs => simp [listHasSub, h]

/-- A substring occurrence survives prepending. -/
theorem listHasSub_append_left (u s pat : List Char)
    (h : listHasSub s pat = true) : listHasSub (u ++ s) pat = true := by
  induction u with
  | nil => simpa using h
  | cons c cu ih => simp [listHasSub, ih]

/-- A pattern occurs in any list that contains it contiguously. -/
theorem listHasSub_extract (u w pat : List Char) :
    listHasSub (u ++ (pat ++ w)) pat = true :=
  listHasSub_append_left u _ pat
    (listHasSub_of_starts _ _ (strStarts_append pat w))

/-- A string whose character list splits around the pattern contains
the pattern as a substring. -/
theorem strHasSub_of_toList (s pat : String) (u w : List Char)
    (h : s.toList = u ++ (pat.toList ++ w)) : strHasSub s pat = true := by
  unfold strHasSub
  rw [h]
  exact listHasSub_extract u w pat.toList

/-- C9 amended: for every triggering evaluation of a numeric condition
kind the reason embeds the concrete numbers of the comparison that
fired — `price_gte` / `price_lte` reasons contain the rendered observed
price and threshold, `pct_change_up` / `pct_change_down` reasons the
two-decimal percent change and the threshold (so the spec's `price_gte`
scenario yields one event whose reason contains `50100` and `50000`) —
but `cross_up` / `cross_down` trigger reasons are always the fixed
strings `"cross_up: undefined -> true"` / `"cross_down: undefined ->
true"`, with no numeric content. -/
theorem reason_strings_amended :
    (∀ (a : AlertWS) (now : Int) (price : ℚ), a.condition_type = .price_gte →
      (shouldTrigger a now price).triggered = true →
      strHasSub (shouldTrigger a now price).reason (numStr price) = true ∧
      strHasSub (shouldTrigger a now price).reason (numStr a.threshold) = true) ∧
    (∀ (a : AlertWS) (now : Int) (price : ℚ), a.condition_type = .price_lte →
      (shouldTrigger a now price).triggered = true →
      strHasSub (shouldTrigger a now price).reason (numStr price) = true ∧
      strHasSub (shouldTrigger a now price).reason (numStr a.threshold) = true) ∧
    (∀ (a : AlertWS) (now : Int) (price b : ℚ), a.condition_type = .pct_change_up →
      pctBase a.lastState = some b →
      (shouldTrigger a now price).triggered = true →
      strHasSub (shouldTrigger a now price).reason
        (toFixed2 ((price - b) / b * 100)) = true ∧
      strHasSub (shouldTrigger a now price).reason (numStr a.threshold) = true) ∧
    (∀ (a : AlertWS) (now : Int) (price b : ℚ), a.condition_type = .pct_change_down →
      pctBase a.lastState = some b →
      (shouldTrigger a now price).triggered = true →
      strHasSub (shouldTrigger a now price).reason
        (toFixed2 ((price - b) / b * 100)) = true ∧
      strHasSub (shouldTrigger a now price).reason (numStr a.threshold) = true) ∧
    (∀ (a : AlertWS) (now : Int) (price : ℚ), a.condition_type = .cross_up →
      (shouldTrigger a now price).triggered = true →
      (shouldTrigger a now price).reason = "cross_up: undefined -> true") ∧
    (∀ (a : AlertWS) (now : Int) (price : ℚ), a.condition_type = .cross_down →
      (shouldTrigger a now price).triggered = true →
      (shouldTrigger a now price).reason = "cross_down: undefined -> true") ∧
    (gteTick1.events.length = 0 ∧ gteTick2.events.length = 1 ∧
      gteTick2.events.map
        (fun e => strHasSub e.reason "50100" && strHasSub e.reason "50000") = [true]) := by
  refine ⟨?_, ?_, ?_, ?_, ?_, ?_, by decide⟩
  · intro a now price hct htrig
    cases hcd : cooldownActive a now with
    | true => simp [shouldTrigger, hcd] at htrig
    | false =>
      by_cases hp : price ≥ a.threshold
      · have hr : (shouldTrigger a now price).reason =
            "price_gte: " ++ numStr price ++ " >= " ++ numStr a.threshold := by
          simp [shouldTrigger, hcd, hct, hp]
        rw [hr]
        constructor
        · apply strHasSub_of_toList _ _ ("price_gte: ".toList)
            ((" >= " ++ numStr a.threshold).toList)
          simp [String.toList, String.data_append]
        · apply strHasSub_of_toList _ _
            (("price_gte: " ++ numStr price ++ " >= ").toList) []
          simp [String.toList, String.data_append]
      · simp [shouldTrigger, hcd, hct, hp] at htrig
  · intro a now price hct htrig
    cases hcd : cooldownActive a now with
    | true => simp [shouldTrigger, hcd] at htrig
    | false =>
      by_cases hp : price ≤ a.threshold
      · have hr : (shouldTrigger a now price).reason =
            "price_lte: " ++ numStr price ++ " <= " ++ numStr a.threshold := by
          simp [shouldTrigger, hcd, hct, hp]
        rw [hr]
        constructor
        · apply strHasSub_of_toList _ _ ("price_lte: ".toList)
            ((" <= " ++ numStr a.threshold).toList)
          simp [String.toList, String.data_append]
        · apply strHasSub_of_toList _ _
            (("price_lte: " ++ numStr price ++ " <= ").toList) []
          simp [String.toList, String.data_append]
      · simp [shouldTrigger, hcd, hct, hp] at htrig
  · intro a now price b hct hb htrig
    cases hcd : cooldownActive a now with
    | true => simp [shouldTrigger, hcd] at htrig
    | false =>
      by_cases hch : (price - b) / b * 100 ≥ a.threshold
      · have hr : (shouldTrigger a now price).reason =
            "pct_change_up: " ++ toFixed2 ((price - b) / b * 100) ++ "% >= "
              ++ numStr a.threshold ++ "%" := by
          simp [shouldTrigger, hcd, hct, hb, hch]
        rw [hr]
        constructor
        · apply strHasSub_of_toList _ _ ("pct_change_up: ".toList)
            (("% >= " ++ numStr a.threshold ++ "%").toList)
          simp [String.toList, String.data_append]
        · apply strHasSub_of_toList _ _
            (("pct_change_up: " ++ toFixed2 ((price - b) / b * 100) ++ "% >= ").toList)
            ("%".toList)
          simp [String.toList, String.data_append]
      · simp [shouldTrigger, hcd, hct, hb, hch] at htrig
  · intro a now price b hct hb htrig
    cases hcd : cooldownActive a now with
    | true => simp [shouldTrigger, hcd] at htrig
    | false =>
      by_cases hch : (price - b) / b * 100 ≤ -a.threshold
      · have hr : (shouldTrigger a now price).reason =
            "pct_change_down: " ++ toFixed2 ((price - b) / b * 100) ++ "% <= -"
              ++ numStr a.threshold ++ "%" := by
          simp [shouldTrigger, hcd, hct, hb, hch]
        rw [hr]
        constructor
        · apply strHasSub_of_toList _ _ ("pct_change_down: ".toList)
            (("% <= -" ++ numStr a.threshold ++ "%").toList)
          simp [String.toList, String.data_append]
        · apply strHasSub_of_toList _ _
            (("pct_change_down: " ++ toFixed2 ((price - b) / b * 100) ++ "% <= -").toList)
            ("%".toList)
          simp [String.toList, String.data_append]
      · simp [shouldTrigger, hcd, hct, hb, hch] at htrig
  · intro a now price hct htrig
    cases hcd : cooldownActive a now with
    | true => simp [shouldTrigger, hcd] at htrig
    | false =>
      by_cases hp : price ≥ a.threshold
      · cases hw : a.lastState.wasAbove with
        | none => simp [shouldTrigger, hcd, hct, hw, hp] at htrig
        | some b =>
          cases b with
          | true => simp [shouldTrigger, hcd, hct, hw, hp] at htrig
          | false => simp [shouldTrigger, hcd, hct, hw, hp]
      · simp [shouldTrigger, hcd, hct, hp] at htrig
  · intro a now price hct htrig
    cases hcd : cooldownActive a now with
    | true => simp [shouldTrigger, hcd] at htrig
    | false =>
      by_cases hp : price ≤ a.threshold
      · cases hw : a.lastState.wasBelow with
        | none => simp [shouldTrigger, hcd, hct, hw, hp] at htrig
        | some b =>
          cases b with
          | true => simp [shouldTrigger, hcd, hct, hw, hp] at htrig
          | false => simp [shouldTrigger, hcd, hct, hw, hp]
      · simp [shouldTrigger, hcd, hct, hp] at htrig

/-- Witness for C9's amended statement: the spec's triggering
`price_gte` evaluation at price 50100 against threshold 50000 carries
both rendered numbers in its reason. -/
theorem reason_strings_amended_w :
    strHasSub (shouldTrigger (mkAlertWS .price_gte 50000 300 none emptyState)
      5 50100).reason (numStr 50100) = true ∧
    strHasSub (shouldTrigger (mkAlertWS .price_gte 50000 300 none emptyState)
      5 50100).reason
      (numStr (mkAlertWS .price_gte 50000 300 none emptyState).threshold) = true :=
  reason_strings_amended.1 (mkAlertWS .price_gte 50000 300 none emptyState)
    5 50100 rfl (by decide)

/-- C1 counterexample: a group due at 50 with interval 5, ticked at
time 100 with a failing price fetch, keeps `nextRunAt = 50` — the tick
returns before the `group.nextRunAt = now + group.interval` line, so
the next-run time is not advanced to 105 as the claim requires. -/
theorem fetch_failure_nextrun_cex :
    (executeGroupTick (oneAlertMap (mkAlertWS .price_gte 100 300 none emptyState))
      ⟨"BTCUSDT", 5, ["a1"], 50⟩ 100 (.error "network error") 0).group.nextRunAt = 50 ∧
    ((50 : Int) ≠ 100 + 5) := by
  decide

/-- C1 amended: a group tick whose price fetch fails returns
immediately: every rule's index entry (evaluator state and
`last_triggered_at` included) is unchanged, no event is created, no
notification task is pushed, no store write happens — and the group,
its `nextRunAt` included, is left exactly as it was, so the group is
picked up again on the next scheduler scan. -/
theorem executeGroupTick_fetch_failure (byId : String → Option AlertWS)
    (g : AlertGroup) (now : Int) (e : String) (nid : Int) :
    executeGroupTick byId g now (.error e) nid = ⟨byId, g, [], [], []⟩ :=
  rfl

/-- Full three-attempt case analysis of `processTask`: the outcome of a
delivery is determined by the first three attempt outcomes. -/
theorem processTask_eq (outcome : ℕ → SendOutcome) :
    processTask outcome =
      match outcome 1 with
      | .success => ⟨1, "success", none, []⟩
      | .failure _ =>
        match outcome 2 with
        | .success => ⟨2, "success", none, [1000]⟩
        | .failure _ =>
          match outcome 3 with
          | .success => ⟨3, "success", none, [1000, 3000]⟩
          | .failure m3 => ⟨3, "failed", some m3, [1000, 3000]⟩ := by
  rcases h1 : outcome 1 with _ | m1 <;>
    rcases h2 : outcome 2 with _ | m2 <;>
      rcases h3 : outcome 3 with _ | m3 <;>
        simp [processTask, processLoop, MAX_RETRIES, retryDelay, RETRY_DELAYS, h1, h2, h3]

/-- C6: delivery makes at most 3 attempts; the backoff schedule is
1s, 3s, 10s with the last value repeating beyond its length; a
successful attempt ends with status `success` and no recorded error
(after waits 1s resp. 1s+3s when earlier attempts failed); three
failures end with status `failed` and the last attempt's error
message. -/
theorem processTask_retry_policy (outcome : ℕ → SendOutcome) :
    (processTask outcome).attempts ≤ MAX_RETRIES ∧
    retryDelay 1 = 1000 ∧ retryDelay 2 = 3000 ∧ retryDelay 3 = 10000 ∧
    (∀ n, 3 ≤ n → retryDelay n = 10000) ∧
    (outcome 1 = .success → processTask outcome = ⟨1, "success", none, []⟩) ∧
    (∀ m1, outcome 1 = .failure m1 → outcome 2 = .success →
      processTask outcome = ⟨2, "success", none, [1000]⟩) ∧
    (∀ m1 m2, outcome 1 = .failure m1 → outcome 2 = .failure m2 →
      outcome 3 = .success →
      processTask outcome = ⟨3, "success", none, [1000, 3000]⟩) ∧
    (∀ m1 m2 m3, outcome 1 = .failure m1 → outcome 2 = .failure m2 →
      outcome 3 = .failure m3 →
      processTask outcome = ⟨3, "failed", some m3, [1000, 3000]⟩) := by
  refine ⟨?_, by decide, by decide, by decide, ?_, ?_, ?_, ?_, ?_⟩
  · rw [processTask_eq]
    rcases h1 : outcome 1 with _ | m1 <;>
      rcases h2 : outcome 2 with _ | m2 <;>
        rcases h3 : outcome 3 with _ | m3 <;>
          simp [MAX_RETRIES]
  · intro n hn
    rcases Nat.lt_or_ge n 4 with h4 | h4
    · have hn3 : n = 3 := by omega
      subst hn3; decide
    · have hnone : ([1000, 3000, 10000] : List ℕ)[n - 1]? = none := by
        apply List.getElem?_eq_none
        simp
        omega
      simp [retryDelay, RETRY_DELAYS, hnone]
  · intro h1; rw [processTask_eq, h1]
  · intro m1 h1 h2; rw [processTask_eq, h1, h2]
  · intro m1 m2 h1 h2 h3; rw [processTask_eq, h1, h2, h3]
  · intro m1 m2 m3 h1 h2 h3; rw [processTask_eq, h1, h2, h3]

/-- Witness for C6: failures on attempts 1 and 2 and a success on
attempt 3 end with status `success`, no error, after 1s and 3s waits. -/
theorem processTask_retry_policy_w :
    processTask (fun n => if n ≤ 2 then SendOutcome.failure "boom" else .success) =
      ⟨3, "success", none, [1000, 3000]⟩ :=
  (processTask_retry_policy
      (fun n => if n ≤ 2 then SendOutcome.failure "boom" else .success)).2.2.2.2.2.2.2.1
    "boom" "boom" rfl rfl rfl


/-- A list that splits as `l ++ x :: r` yet has length at most one has
empty margins. -/
theorem split_singleton {α : Type} (l r : List α) (x : α)
    (h : (l ++ x :: r).length ≤ 1) : l = [] ∧ r = [] := by
  rcases l with _ | ⟨a, ls⟩
  · rcases r with _ | ⟨b, rs⟩
    · exact ⟨rfl, rfl⟩
    · exfalso; simp at h
  · exfalso; simp at h

/-- The queue invariant holds of the freshly loaded module. -/
theorem queueInv_init : QueueInv initQueue := by
  refine ⟨?_, ?_, ?_, ?_⟩ <;> simp [QueueInv, initQueue, inflight]

/-- Every atomic step of the queue module preserves the
single-consumer FIFO invariant. -/
theorem queueInv_step {s s' : QueueState} (hinv : QueueInv s)
    (hstep : QStep s s') : QueueInv s' := by
  obtain ⟨hflag, hlen, hcons, hord⟩ := hinv
  cases hstep with
  | enq t =>
    by_cases hp : s.isProcessing = true
    · refine ⟨?_, ?_, ?_, ?_⟩
      · simpa [pushToNotifyQueue, hp] using hflag
      · simpa [pushToNotifyQueue, hp] using hlen
      · intro _
        simpa [pushToNotifyQueue, hp] using hflag.mp hp
      · simp [pushToNotifyQueue, hp, inflight, hord]
    · have hdr : s.drains = [] := by
        by_contra hne
        exact hp (hflag.mpr hne)
      refine ⟨?_, ?_, ?_, ?_⟩
      · simp [pushToNotifyQueue, hp, hdr]
      · simp [pushToNotifyQueue, hp, hdr]
      · intro _
        simp [pushToNotifyQueue, hp, hdr]
      · simp [pushToNotifyQueue, hp, hdr, inflight, hord]
  | drain_pick l r t ts hd ht =>
    obtain ⟨rfl, rfl⟩ := split_singleton l r DrainPC.looping (by rw [← hd]; exact hlen)
    have hp : s.isProcessing = true := hflag.mpr (by rw [hd]; simp)
    refine ⟨?_, ?_, ?_, ?_⟩
    · simp [hp]
    · simp
    · intro _
      simp
    · simp [inflight, hd, ht] at hord
      simp [inflight, hord]
  | drain_send_done l r t hd =>
    obtain ⟨rfl, rfl⟩ := split_singleton l r (DrainPC.sending t) (by rw [← hd]; exact hlen)
    have hp : s.isProcessing = true := hflag.mpr (by rw [hd]; simp)
    refine ⟨?_, ?_, ?_, ?_⟩
    · simp [hp]
    · simp
    · intro htk
      simp
    · simp [inflight, hd] at hord
      simp [inflight, hord]
  | drain_finish l r hd ht =>
    obtain ⟨rfl, rfl⟩ := split_singleton l r DrainPC.looping (by rw [← hd]; exact hlen)
    refine ⟨?_, ?_, ?_, ?_⟩
    · simp
    · simp
    · intro htk
      simp [ht] at htk
    · simp [inflight, hd, ht] at hord
      simp [inflight, hord, ht]

/-- The in-flight tasks of a drain list are never more numerous than
the drains themselves. -/
theorem inflightOf_length_le (ds : List DrainPC) :
    (ds.foldr (fun d acc =>
      match d with | .sending t => t :: acc | .looping => acc) []).length ≤ ds.length := by
  induction ds with
  | nil => simp
  | cons d ds ih =>
    cases d with
    | looping =>
      simpa using Nat.le_succ_of_le ih
    | sending t =>
      simpa using ih

/-- C8: in every reachable queue state there is at most one live drain
invocation, hence at most one send in flight; an enqueue arriving while
the flag is up only appends to the FIFO (drains and sends untouched);
pending tasks always have a live consumer able to take a step; and the
enqueue order is exactly sent-then-in-flight-then-pending, so sends
happen one at a time in FIFO order. -/
theorem queue_single_consumer (s : QueueState) (h : QReachable s) :
    s.drains.length ≤ 1 ∧
    (inflight s).length ≤ 1 ∧
    (s.isProcessing = true → ∀ t, (pushToNotifyQueue s t).drains = s.drains ∧
      (pushToNotifyQueue s t).tasks = s.tasks ++ [t] ∧
      (pushToNotifyQueue s t).sent = s.sent) ∧
    (s.tasks ≠ [] → s.drains ≠ [] ∧ ∃ s', QStep s s') ∧
    s.enqueued = s.sent ++ inflight s ++ s.tasks := by
  have hinv : QueueInv s := by
    induction h with
    | init => exact queueInv_init
    | step hr hs ih => exact queueInv_step ih hs
  obtain ⟨hflag, hlen, hcons, hord⟩ := hinv
  refine ⟨hlen, le_trans (inflightOf_length_le s.drains) hlen, ?_, ?_, hord⟩
  · intro hp t
    refine ⟨?_, ?_, ?_⟩ <;> simp [pushToNotifyQueue, hp]
  · intro ht
    refine ⟨hcons ht, ?_⟩
    rcases hd : s.drains with _ | ⟨d, ds⟩
    · exact absurd hd (hcons ht)
    · have hds : ds = [] := by
        rcases ds with _ | ⟨d2, ds2⟩
        · rfl
        · exfalso
          rw [hd] at hlen
          simp at hlen
      subst hds
      cases d with
      | looping =>
        rcases htk : s.tasks with _ | ⟨t0, ts⟩
        · exact absurd htk ht
        · exact ⟨_, QStep.drain_pick s [] [] t0 ts (by simpa using hd) htk⟩
      | sending t0 =>
        exact ⟨_, QStep.drain_send_done s [] [] t0 (by simpa using hd)⟩

/-- Witness for C8 at the reachable initial state. -/
theorem queue_single_consumer_w :
    initQueue.drains.length ≤ 1 ∧
    (inflight initQueue).length ≤ 1 ∧
    (initQueue.isProcessing = true → ∀ t,
      (pushToNotifyQueue initQueue t).drains = initQueue.drains ∧
      (pushToNotifyQueue initQueue t).tasks = initQueue.tasks ++ [t] ∧
      (pushToNotifyQueue initQueue t).sent = initQueue.sent) ∧
    (initQueue.tasks ≠ [] → initQueue.drains ≠ [] ∧ ∃ s', QStep initQueue s') ∧
    initQueue.enqueued = initQueue.sent ++ inflight initQueue ++ initQueue.tasks :=
  queue_single_consumer initQueue QReachable.init

/-- `upd` at the written key. -/
theorem upd_self {α β : Type} [DecidableEq α] (m : α → Option β) (k : α)
    (v : Option β) : upd m k v k = v := by
  simp [upd]

/-- `upd` elsewhere. -/
theorem upd_other {α β : Type} [DecidableEq α] (m : α → Option β) (k k' : α)
    (v : Option β) (h : k' ≠ k) : upd m k v k' = m k' := by
  simp [upd, h]

/-- Membership after a JS `Set.add`. -/
theorem mem_listAdd (l : List String) (x y : String) :
    y ∈ listAdd l x ↔ y ∈ l ∨ y = x := by
  by_cases h : x ∈ l
  · simp only [listAdd, if_pos h]
    constructor
    · exact Or.inl
    · rintro (hy | rfl)
      · exact hy
      · exact h
  · simp [listAdd, h]

/-- A JS `Set.add` never empties the set. -/
theorem listAdd_ne_nil (l : List String) (x : String) : listAdd l x ≠ [] := by
  by_cases h : x ∈ l
  · simp only [listAdd, if_pos h]
    exact List.ne_nil_of_mem h
  · simp [listAdd, h]

/-- Membership after a JS `Set.delete`. -/
theorem mem_listDel (l : List String) (x y : String) :
    y ∈ listDel l x ↔ y ∈ l ∧ y ≠ x := by
  simp [listDel, List.mem_filter]

/-- `groupRemove` leaves every other key untouched. -/
theorem groupRemove_other (gs : String × Int → Option AlertGroup)
    (k k' : String × Int) (id : String) (h : k' ≠ k) :
    groupRemove gs k id k' = gs k' := by
  unfold groupRemove
  cases hg : gs k
  · rfl
  · simp only []
    split <;> simp [upd, h]

/-- What a key can hold after `groupRemove`: an untouched group at
another key, or the original group with the id deleted and the result
still nonempty. -/
theorem groupRemove_some (gs : String × Int → Option AlertGroup)
    (kold : String × Int) (id : String) (k : String × Int) (g : AlertGroup)
    (h : groupRemove gs kold id k = some g) :
    (k ≠ kold ∧ gs k = some g) ∨
    (k = kold ∧ ∃ g0, gs kold = some g0 ∧
      g = { g0 with alertIds := listDel g0.alertIds id } ∧
      listDel g0.alertIds id ≠ []) := by
  by_cases hk : k = kold
  · subst hk
    right
    refine ⟨rfl, ?_⟩
    unfold groupRemove at h
    cases hgk : gs k with
    | none =>
      simp only [hgk] at h
      exact absurd h (by simp)
    | some g0 =>
      simp only [hgk] at h
      by_cases hnil : listDel g0.alertIds id = []
      · rw [if_pos hnil, upd_self] at h
        exact absurd h (by simp)
      · rw [if_neg hnil, upd_self] at h
        exact ⟨g0, rfl, (Option.some.inj h).symm, hnil⟩
  · exact Or.inl ⟨hk, by rw [← groupRemove_other gs kold k id hk]; exact h⟩

/-- Membership in the groups map after `groupRemove`: exactly the old
memberships minus the removed `(key, id)` pair. -/
theorem groupRemove_mem (gs : String × Int → Option AlertGroup)
    (kold : String × Int) (id : String) (k : String × Int) (id' : String) :
    (∃ g, groupRemove gs kold id k = some g ∧ id' ∈ g.alertIds) ↔
      ((∃ g, gs k = some g ∧ id' ∈ g.alertIds) ∧ ¬(k = kold ∧ id' = id)) := by
  by_cases hk : k = kold
  · subst hk
    unfold groupRemove
    cases hgk : gs k with
    | none => simp [hgk]
    | some g0 =>
      by_cases hnil : listDel g0.alertIds id = []
      · have hmem : ∀ y, (y ∈ g0.alertIds ∧ y ≠ id) ↔ False := by
          intro y
          rw [← mem_listDel, hnil]
          simp
        simp [hgk, hnil, upd_self, hmem id']
      · simp [hgk, hnil, upd_self, mem_listDel]
  · rw [groupRemove_other gs kold k id hk]
    simp [hk]

/-- After the removal block the id index no longer holds the id. -/
theorem removeAlert_byId_self (s : EngineState) (id : String) :
    (removeAlert s id).byId id = none := by
  unfold removeAlert
  cases s.byId id <;> simp [upd]

/-- Removing an id that the id index does not hold changes nothing. -/
theorem removeAlert_noop (s : EngineState) (id : String)
    (h : s.byId id = none) : removeAlert s id = s := by
  obtain ⟨bi, bs, gs⟩ := s
  have h' : bi id = none := h
  have hupd : upd bi id none = bi := by
    funext x
    by_cases hx : x = id
    · subst hx
      simp [upd, h'.symm]
    · simp [upd, hx]
  simp only [removeAlert, h', hupd]

/-- C10: `applyChange("delete", r)` for an id absent from the id index
leaves all three derived structures exactly unchanged, and deleting
twice yields the same state as deleting once. -/
theorem applyChange_delete_noop_idem (s : EngineState) (alert : Alert)
    (now nowTwo : Int) :
    (s.byId alert.id = none → applyChange s .delete alert now = s) ∧
    applyChange (applyChange s .delete alert now) .delete alert nowTwo =
      applyChange s .delete alert now := by
  constructor
  · intro h
    show removeAlert s alert.id = s
    exact removeAlert_noop s alert.id h
  · show removeAlert (removeAlert s alert.id) alert.id = removeAlert s alert.id
    exact removeAlert_noop _ _ (removeAlert_byId_self s alert.id)

/-- The demo rule used to instantiate the index-manager theorems. -/
def aDemo : Alert := ⟨"a1", "BTCUSDT", .price_gte, 100, 5, 300, true, none, none⟩

/-- Witness for C10: deleting an unknown rule from empty indexes is a
no-op. -/
theorem applyChange_delete_noop_idem_w :
    applyChange emptyEngine .delete aDemo 0 = emptyEngine :=
  (applyChange_delete_noop_idem emptyEngine aDemo 0 0).1 rfl

/-- The empty indexes satisfy the engine invariant. -/
theorem engineInv_empty : EngineInv emptyEngine := by
  constructor <;> intro _ <;> simp [emptyEngine, inGroup]

/-- Inserting an enabled alert preserves the engine invariant,
provided the alert is grouped nowhere except possibly at its own key
(the state right after `applyChange` has moved it out of a changed old
group, or never held it). -/
theorem engineInv_insertEnabled (s : EngineState) (alert : Alert) (now : Int)
    (hen : alert.is_enabled = true)
    (h1 : ∀ id a, s.byId id = some a → a.is_enabled = true)
    (h2 : ∀ k g, s.groups k = some g → g.symbol = k.1 ∧ g.interval = k.2)
    (h3 : ∀ k g, s.groups k = some g → g.alertIds ≠ [])
    (h4 : ∀ k g, s.groups k = some g → ∀ id, id ∈ g.alertIds →
      ∃ a, s.byId id = some a ∧ a.symbol = k.1 ∧ a.poll_interval_sec = k.2)
    (h5 : ∀ id a, id ≠ alert.id → s.byId id = some a →
      inGroup s id (a.symbol, a.poll_interval_sec))
    (h6 : ∀ k, inGroup s alert.id k → k = (alert.symbol, alert.poll_interval_sec)) :
    EngineInv (insertEnabled s alert now) := by
  have hbyId : ∀ id, (insertEnabled s alert now).byId id =
      upd s.byId alert.id
        (some { toAlert := alert, lastState := alert.last_state.getD emptyState }) id :=
    fun _ => rfl
  have hgroups : ∀ k, (insertEnabled s alert now).groups k =
      upd s.groups (alert.symbol, alert.poll_interval_sec)
        (some { (match s.groups (alert.symbol, alert.poll_interval_sec) with
                 | some g => g
                 | none => ⟨alert.symbol, alert.poll_interval_sec, [],
                     now + alert.poll_interval_sec⟩) with
                alertIds := listAdd
                  (match s.groups (alert.symbol, alert.poll_interval_sec) with
                   | some g => g
                   | none => ⟨alert.symbol, alert.poll_interval_sec, [],
                       now + alert.poll_interval_sec⟩).alertIds alert.id }) k :=
    fun _ => rfl
  set key : String × Int := (alert.symbol, alert.poll_interval_sec) with hkey
  set g0 : AlertGroup := (match s.groups key with
    | some g => g
    | none => ⟨alert.symbol, alert.poll_interval_sec, [],
        now + alert.poll_interval_sec⟩) with hg0
  have hg0mem : ∀ id, id ∈ g0.alertIds → id ≠ alert.id →
      ∃ a, s.byId id = some a ∧ a.symbol = key.1 ∧ a.poll_interval_sec = key.2 := by
    intro id hm _
    rcases hq : s.groups key with _ | gOld
    · rw [hg0, hq] at hm
      simp at hm
    · rw [hg0, hq] at hm
      exact h4 key gOld hq id hm
  have hg0key : g0.symbol = key.1 ∧ g0.interval = key.2 := by
    rcases hq : s.groups key with _ | gOld
    · rw [hg0, hq]
      exact ⟨rfl, rfl⟩
    · rw [hg0, hq]
      exact h2 key gOld hq
  constructor
  · intro id a hba
    rw [hbyId] at hba
    by_cases hid : id = alert.id
    · subst hid
      rw [upd_self] at hba
      obtain rfl := Option.some.inj hba
      exact hen
    · rw [upd_other _ _ _ _ hid] at hba
      exact h1 id a hba
  · intro k g hkg
    rw [hgroups] at hkg
    by_cases hk : k = key
    · subst hk
      rw [upd_self] at hkg
      obtain rfl := Option.some.inj hkg
      exact hg0key
    · rw [upd_other _ _ _ _ hk] at hkg
      exact h2 k g hkg
  · intro k g hkg
    rw [hgroups] at hkg
    by_cases hk : k = key
    · subst hk
      rw [upd_self] at hkg
      obtain rfl := Option.some.inj hkg
      exact listAdd_ne_nil _ _
    · rw [upd_other _ _ _ _ hk] at hkg
      exact h3 k g hkg
  · intro k g hkg id hm
    rw [hgroups] at hkg
    by_cases hk : k = key
    · subst hk
      rw [upd_self] at hkg
      obtain rfl := Option.some.inj hkg
      have hm' : id ∈ listAdd g0.alertIds alert.id := hm
      by_cases hid : id = alert.id
      · subst hid
        refine ⟨{ toAlert := alert, lastState := alert.last_state.getD emptyState },
          ?_, rfl, rfl⟩
        rw [hbyId, upd_self]
      · rcases (mem_listAdd _ _ _).mp hm' with hin | hcontra
        · obtain ⟨a, ha, hs, hp⟩ := hg0mem id hin hid
          refine ⟨a, ?_, hs, hp⟩
          rw [hbyId, upd_other _ _ _ _ hid]
          exact ha
        · exact absurd hcontra hid
    · rw [upd_other _ _ _ _ hk] at hkg
      by_cases hid : id = alert.id
      · subst hid
        exact absurd (h6 k ⟨g, hkg, hm⟩) hk
      · obtain ⟨a, ha, hs, hp⟩ := h4 k g hkg id hm
        refine ⟨a, ?_, hs, hp⟩
        rw [hbyId, upd_other _ _ _ _ hid]
        exact ha
  · intro id a hba
    rw [hbyId] at hba
    by_cases hid : id = alert.id
    · subst hid
      rw [upd_self] at hba
      obtain rfl := Option.some.inj hba
      refine ⟨{ g0 with alertIds := listAdd g0.alertIds alert.id }, ?_, ?_⟩
      · rw [hgroups]
        exact upd_self _ _ _
      · exact (mem_listAdd _ _ _).mpr (Or.inr rfl)
    · rw [upd_other _ _ _ _ hid] at hba
      obtain ⟨g, hg, hgm⟩ := h5 id a hid hba
      by_cases hk : (a.symbol, a.poll_interval_sec) = key
      · refine ⟨{ g0 with alertIds := listAdd g0.alertIds alert.id }, ?_, ?_⟩
        · rw [hgroups, hk]
          exact upd_self _ _ _
        · have hgg0 : g = g0 := by
            rw [hk] at hg
            rw [hg0]
            rw [hg]
          rw [← hgg0]
          exact (mem_listAdd _ _ _).mpr (Or.inl hgm)
      · refine ⟨g, ?_, hgm⟩
        rw [hgroups, upd_other _ _ _ _ hk]
        exact hg

/-- The removal block preserves the engine invariant. -/
theorem engineInv_removeAlert (s : EngineState) (id : String)
    (h : EngineInv s) : EngineInv (removeAlert s id) := by
  obtain ⟨h1, h2, h3, h4, h5⟩ := h
  cases hold : s.byId id with
  | none =>
    rw [removeAlert_noop s id hold]
    exact ⟨h1, h2, h3, h4, h5⟩
  | some old =>
    have hbyId : (removeAlert s id).byId = upd s.byId id none := by
      unfold removeAlert
      simp only [hold]
    have hgr : (removeAlert s id).groups =
        groupRemove s.groups (old.symbol, old.poll_interval_sec) id := by
      unfold removeAlert
      simp only [hold]
    constructor
    · intro x a hba
      rw [hbyId] at hba
      by_cases hx : x = id
      · subst hx
        rw [upd_self] at hba
        exact absurd hba (by simp)
      · rw [upd_other _ _ _ _ hx] at hba
        exact h1 x a hba
    · intro k g hkg
      rw [hgr] at hkg
      rcases groupRemove_some _ _ _ _ _ hkg with ⟨_, hg⟩ | ⟨hk, g0, hg0, rfl, _⟩
      · exact h2 k g hg
      · subst hk
        exact h2 _ g0 hg0
    · intro k g hkg
      rw [hgr] at hkg
      rcases groupRemove_some _ _ _ _ _ hkg with ⟨_, hg⟩ | ⟨hk, g0, hg0, rfl, hnil⟩
      · exact h3 k g hg
      · exact hnil
    · intro k g hkg x hm
      rw [hgr] at hkg
      obtain ⟨⟨g', hg', hm'⟩, hne⟩ :=
        (groupRemove_mem s.groups (old.symbol, old.poll_interval_sec) id k x).mp
          ⟨g, hkg, hm⟩
      obtain ⟨a, ha, hs, hp⟩ := h4 k g' hg' x hm'
      have hx : x ≠ id := by
        intro he
        subst he
        rw [hold] at ha
        obtain rfl := Option.some.inj ha
        exact hne ⟨Prod.ext hs.symm hp.symm, rfl⟩
      refine ⟨a, ?_, hs, hp⟩
      rw [hbyId, upd_other _ _ _ _ hx]
      exact ha
    · intro x a hba
      rw [hbyId] at hba
      by_cases hx : x = id
      · subst hx
        rw [upd_self] at hba
        exact absurd hba (by simp)
      · rw [upd_other _ _ _ _ hx] at hba
        obtain ⟨g, hg, hm⟩ := h5 x a hba
        obtain ⟨g2, hg2, hm2⟩ :=
          (groupRemove_mem s.groups (old.symbol, old.poll_interval_sec) id
            (a.symbol, a.poll_interval_sec) x).mpr
            ⟨⟨g, hg, hm⟩, fun hpq => hx hpq.2⟩
        refine ⟨g2, ?_, hm2⟩
        rw [hgr]
        exact hg2

/-- The shared upsert/update body of `applyChange` preserves the
engine invariant. -/
theorem engineInv_nonDelete (s : EngineState) (alert : Alert) (now : Int)
    (hinv : EngineInv s) :
    EngineInv (if alert.is_enabled then
        insertEnabled
          (match s.byId alert.id with
           | some old =>
             if old.poll_interval_sec ≠ alert.poll_interval_sec ∨
                 old.symbol ≠ alert.symbol then
               { s with groups :=
                   groupRemove s.groups (old.symbol, old.poll_interval_sec) alert.id }
             else s
           | none => s) alert now
      else removeAlert s alert.id) := by
  obtain ⟨h1, h2, h3, h4, h5⟩ := hinv
  by_cases hen : alert.is_enabled
  · rw [if_pos hen]
    cases hold : s.byId alert.id with
    | none =>
      simp only [hold]
      refine engineInv_insertEnabled s alert now hen h1 h2 h3 h4 ?_ ?_
      · intro id a _ hba
        exact h5 id a hba
      · intro k hk
        obtain ⟨g, hg, hm⟩ := hk
        obtain ⟨a, ha, _, _⟩ := h4 k g hg alert.id hm
        rw [hold] at ha
        exact absurd ha (by simp)
    | some old =>
      simp only [hold]
      by_cases hch : old.poll_interval_sec ≠ alert.poll_interval_sec ∨
          old.symbol ≠ alert.symbol
      · rw [if_pos hch]
        refine engineInv_insertEnabled _ alert now hen ?_ ?_ ?_ ?_ ?_ ?_
        · exact h1
        · intro k g hkg
          rcases groupRemove_some _ _ _ _ _ hkg with ⟨_, hg⟩ | ⟨hk, g0, hg0, rfl, _⟩
          · exact h2 k g hg
          · subst hk
            exact h2 _ g0 hg0
        · intro k g hkg
          rcases groupRemove_some _ _ _ _ _ hkg with ⟨_, hg⟩ | ⟨hk, g0, hg0, rfl, hnil⟩
          · exact h3 k g hg
          · exact hnil
        · intro k g hkg x hm
          obtain ⟨⟨g', hg', hm'⟩, hne⟩ :=
            (groupRemove_mem s.groups (old.symbol, old.poll_interval_sec)
              alert.id k x).mp ⟨g, hkg, hm⟩
          exact h4 k g' hg' x hm'
        · intro x a hx hba
          obtain ⟨g, hg, hm⟩ := h5 x a hba
          exact (groupRemove_mem s.groups (old.symbol, old.poll_interval_sec)
            alert.id (a.symbol, a.poll_interval_sec) x).mpr
            ⟨⟨g, hg, hm⟩, fun hpq => hx hpq.2⟩
        · intro k hk
          obtain ⟨g, hg, hm⟩ := hk
          obtain ⟨⟨g', hg', hm'⟩, hne⟩ :=
            (groupRemove_mem s.groups (old.symbol, old.poll_interval_sec)
              alert.id k alert.id).mp ⟨g, hg, hm⟩
          obtain ⟨a, ha, hs, hp⟩ := h4 k g' hg' alert.id hm'
          rw [hold] at ha
          obtain rfl := Option.some.inj ha
          exact (hne ⟨Prod.ext hs.symm hp.symm, rfl⟩).elim
      · rw [if_neg hch]
        push_neg at hch
        obtain ⟨hpi, hsy⟩ := hch
        refine engineInv_insertEnabled s alert now hen h1 h2 h3 h4 ?_ ?_
        · intro id a _ hba
          exact h5 id a hba
        · intro k hk
          obtain ⟨g, hg, hm⟩ := hk
          obtain ⟨a, ha, hs, hp⟩ := h4 k g hg alert.id hm
          rw [hold] at ha
          obtain rfl := Option.some.inj ha
          rw [← hsy, ← hpi]
          exact Prod.ext hs.symm hp.symm
  · rw [if_neg hen]
    exact engineInv_removeAlert s alert.id ⟨h1, h2, h3, h4, h5⟩

/-- `applyChange` preserves the engine invariant for every action. -/
theorem engineInv_applyChange (s : EngineState) (act : ChangeAction)
    (alert : Alert) (now : Int) (h : EngineInv s) :
    EngineInv (applyChange s act alert now) := by
  cases act with
  | delete => exact engineInv_removeAlert s alert.id h
  | upsert => exact engineInv_nonDelete s alert now h
  | update => exact engineInv_nonDelete s alert now h

/-- Inserting does not touch other ids in the id index. -/
theorem insertEnabled_byId_other (s : EngineState) (alert : Alert) (now : Int)
    (id : String) (h : id ≠ alert.id) :
    (insertEnabled s alert now).byId id = s.byId id := by
  simp only [insertEnabled]
  exact upd_other _ _ _ _ h

/-- The rebuild loop preserves the engine invariant when the alerts it
reads are enabled, have pairwise distinct ids and are all new to the
id index. -/
theorem engineInv_rebuild_aux (now : Int) (alerts : List Alert) :
    ∀ (s : EngineState), EngineInv s →
    (∀ a ∈ alerts, a.is_enabled = true) →
    (alerts.map Alert.id).Nodup →
    (∀ a ∈ alerts, s.byId a.id = none) →
    EngineInv (alerts.foldl (fun s a => insertEnabled s a now) s) := by
  induction alerts with
  | nil =>
    intro s h _ _ _
    simpa using h
  | cons a rest ih =>
    intro s h hen hnd hfresh
    simp only [List.foldl_cons]
    have hinv' : EngineInv (insertEnabled s a now) := by
      obtain ⟨h1, h2, h3, h4, h5⟩ := h
      refine engineInv_insertEnabled s a now (hen a (by simp)) h1 h2 h3 h4 ?_ ?_
      · intro id a' _ hba
        exact h5 id a' hba
      · intro k hk
        obtain ⟨g, hg, hm⟩ := hk
        obtain ⟨a', ha', _, _⟩ := h4 k g hg a.id hm
        rw [hfresh a (by simp)] at ha'
        exact absurd ha' (by simp)
    refine ih (insertEnabled s a now) hinv' ?_ ?_ ?_
    · intro b hb
      exact hen b (by simp [hb])
    · have := hnd
      simp only [List.map_cons, List.nodup_cons] at this
      exact this.2
    · intro b hb
      have hbne : b.id ≠ a.id := by
        intro he
        have hmem : a.id ∈ rest.map Alert.id := List.mem_map.mpr ⟨b, hb, he⟩
        have := hnd
        simp only [List.map_cons, List.nodup_cons] at this
        exact this.1 hmem
      rw [insertEnabled_byId_other s a now b.id hbne]
      exact hfresh b (by simp [hb])

/-- `rebuildFromDb` over enabled alerts with distinct ids establishes
the engine invariant. -/
theorem engineInv_rebuild (alerts : List Alert) (now : Int)
    (hen : ∀ a ∈ alerts, a.is_enabled = true)
    (hnd : (alerts.map Alert.id).Nodup) :
    EngineInv (rebuildFromDb alerts now) := by
  refine engineInv_rebuild_aux now alerts emptyEngine engineInv_empty hen hnd ?_
  intro a _
  rfl

/-- A sequence of `applyChange` calls preserves the engine invariant. -/
theorem engineInv_applyChanges (ops : List (ChangeAction × Alert × Int)) :
    ∀ (s : EngineState), EngineInv s → EngineInv (applyChanges s ops) := by
  induction ops with
  | nil =>
    intro s h
    simpa [applyChanges] using h
  | cons op rest ih =>
    intro s h
    simp only [applyChanges, List.foldl_cons]
    exact ih (applyChange s op.1 op.2.1 op.2.2) (engineInv_applyChange _ _ _ _ h)

/-- The engine invariant implies the claim-level group invariant. -/
theorem engineInv_groupInvariant (s : EngineState) (h : EngineInv s) :
    GroupInvariant s := by
  obtain ⟨h1, h2, h3, h4, h5⟩ := h
  refine ⟨?_, ?_, ?_⟩
  · intro id a hba
    refine ⟨h5 id a hba, ?_⟩
    intro k hk
    obtain ⟨g, hg, hm⟩ := hk
    obtain ⟨a', ha', hs, hp⟩ := h4 k g hg id hm
    rw [hba] at ha'
    obtain rfl := Option.some.inj ha'
    exact Prod.ext hs.symm hp.symm
  · intro id hid k hk
    obtain ⟨g, hg, hm⟩ := hk
    obtain ⟨a', ha', _, _⟩ := h4 k g hg id hm
    rw [hid] at ha'
    exact absurd ha' (by simp)
  · exact h3

/-- C7: starting from a rebuild over enabled alerts with distinct ids,
any sequence of `applyChange` operations leaves the derived structures
satisfying the group invariant: every indexed (enabled) rule sits in
exactly the group of its current `(symbol, interval)` key, rules
absent from the id index (disabled or deleted) sit in no group, and no
stored group is empty — so disabling and re-enabling a rule lands it
in exactly one group for its unchanged key. -/
theorem group_membership_invariant (alerts : List Alert) (now : Int)
    (hen : ∀ a ∈ alerts, a.is_enabled = true)
    (hnd : (alerts.map Alert.id).Nodup)
    (ops : List (ChangeAction × Alert × Int)) :
    GroupInvariant (applyChanges (rebuildFromDb alerts now) ops) :=
  engineInv_groupInvariant _
    (engineInv_applyChanges ops _ (engineInv_rebuild alerts now hen hnd))

/-- The demo rule in its disabled form. -/
def aDemoOff : Alert := { aDemo with is_enabled := false }

/-- Witness for C7: one rebuilt rule, disabled then re-enabled without
changing symbol or interval. -/
theorem group_membership_invariant_w :
    GroupInvariant (applyChanges (rebuildFromDb [aDemo] 100)
      [(.update, aDemoOff, 110), (.update, aDemo, 120)]) :=
  group_membership_invariant [aDemo] 100
    (by intro a ha; simp at ha; subst ha; rfl)
    (by simp)
    [(.update, aDemoOff, 110), (.update, aDemo, 120)]
